import Mathlib

/-!
Shallow embedding of the sigilla form library.

The current module (src/form.ts, Standard Schema based) is embedded in the
`Sigilla` namespace: the canonical record, the `FormInstance` class with all
of its accessors and mutators, `toFormObject`, and the three entry operations
`newForm`, `validateForm`, `loadForm` produced by `createForm`.

The earlier Zod-based module (its compatibility checker
`validateSchemaCompatibility` / `validateFieldSchema` / `unwrapModifiers` /
`validateBaseFieldType`, and the `createForm` that invokes the checker at
setup time) is embedded in the `Sigilla.Zod` namespace over a tagged-variant
model of the introspectable Zod schema nodes.

JavaScript objects keyed by field name are modelled as association lists
(`AList`) preserving insertion order: assignment to an existing key keeps its
position, assignment to a fresh key appends; lookup returns the first match.
`undefined`-producing expressions are modelled with `Option`.
-/

namespace Sigilla

/-- Association list modelling a JavaScript object with string keys. -/
abbrev AList (V : Type) := List (String × V)

/-- Property read `obj[k]`: first binding for `k`, or `none` for `undefined`. -/
def lookup {V : Type} : AList V → String → Option V
  | [], _ => none
  | (k', v') :: rest, k => if k' = k then some v' else lookup rest k

/-- Property write `obj[k] = v`: replace in place when the key exists,
append otherwise (JavaScript insertion-order semantics). -/
def setKey {V : Type} : AList V → String → V → AList V
  | [], k, v => [(k, v)]
  | (k', v') :: rest, k, v =>
    if k' = k then (k, v) :: rest else (k', v') :: setKey rest k v

/-- The value type of `FormStateRecord`: `string | string[]`. -/
inductive FieldValue where
  | str (s : String)
  | arr (items : List String)
deriving DecidableEq, Repr

/-- `FormStateRecord = Record<string, string | string[]>`. -/
abbrev FormStateRecord := AList FieldValue

/-- `FormState<T>` from src/form.ts: the serializable snapshot triple. -/
structure FormState where
  record : FormStateRecord
  fieldErrors : AList (List String)
  formErrors : List String
deriving DecidableEq, Repr

/-- A Standard Schema issue: a message and an optional path
(path segments modelled by their property-key strings). -/
structure Issue where
  message : String
  path : Option (List String)
deriving DecidableEq, Repr

/-- `StandardSchemaV1.Result<T>`: success carries the parsed value,
failure carries the issue list (`issues` present, possibly empty). -/
inductive VResult (T : Type) where
  | success (value : T)
  | failure (issues : List Issue)
deriving DecidableEq, Repr

/-- `FormInstance<T>`: a form state plus the optional validation result. -/
structure FormInstance (T : Type) where
  formState : FormState
  validationResult : Option (VResult T)
deriving DecidableEq, Repr

/-- `value.toLowerCase()`, modelled as per-character lowering. -/
def jsToLowerCase (s : String) : String :=
  ⟨s.data.map Char.toLower⟩

namespace FormInstance

variable {T : Type}

/-- `get(field)`. The source declares a `string` return type, but the read
`value[0]` on an array yields `undefined` when the array is empty, so the
result is modelled as `Option String` with `none` for `undefined`. The
`if (!value) return ""` guard makes a missing key and an empty-string value
both return the empty string. -/
def get (fi : FormInstance T) (field : String) : Option String :=
  match lookup fi.formState.record field with
  | none => some ""
  | some (FieldValue.str s) => if s = "" then some "" else some s
  | some (FieldValue.arr items) => items.head?

/-- `getAll(field)`: the value as a list; the falsiness guard sends both a
missing key and an empty-string value to `[]`. -/
def getAll (fi : FormInstance T) (field : String) : List String :=
  match lookup fi.formState.record field with
  | none => []
  | some (FieldValue.str s) => if s = "" then [] else [s]
  | some (FieldValue.arr items) => items

/-- `isTrue(field)`: falsy (`undefined` or empty string) is false, otherwise
the lower-cased value must differ from `""`, `"false"` and `"0"`. -/
def isTrue (fi : FormInstance T) (field : String) : Bool :=
  match fi.get field with
  | none => false
  | some v =>
    if v = "" then false
    else
      let lowerValue := jsToLowerCase v
      lowerValue != "" && lowerValue != "false" && lowerValue != "0"

/-- `error(field)`: first message of the field entry, `undefined` otherwise. -/
def error (fi : FormInstance T) (field : String) : Option String :=
  (lookup fi.formState.fieldErrors field).bind List.head?

/-- `errors(field)`: the field entry or an empty list. -/
def errors (fi : FormInstance T) (field : String) : List String :=
  (lookup fi.formState.fieldErrors field).getD []

/-- `isInvalid(field)`: the field error list is non-empty. -/
def isInvalid (fi : FormInstance T) (field : String) : Bool :=
  decide (0 < ((lookup fi.formState.fieldErrors field).getD []).length)

/-- `addFormError(msg)`: push onto the form error list. -/
def addFormError (fi : FormInstance T) (msg : String) : FormInstance T :=
  { fi with formState :=
    { fi.formState with formErrors := fi.formState.formErrors ++ [msg] } }

/-- `addFieldError(field, msg)`: create the entry when missing, then push. -/
def addFieldError (fi : FormInstance T) (field msg : String) : FormInstance T :=
  let entry := (lookup fi.formState.fieldErrors field).getD []
  { fi with formState :=
    { fi.formState with
      fieldErrors := setKey fi.formState.fieldErrors field (entry ++ [msg]) } }

/-- `clear(field)`: record value becomes the empty string, error entry
becomes the empty list. -/
def clear (fi : FormInstance T) (field : String) : FormInstance T :=
  { fi with formState :=
    { fi.formState with
      record := setKey fi.formState.record field (FieldValue.str ""),
      fieldErrors := setKey fi.formState.fieldErrors field [] } }

/-- First-occurrence deduplication, modelling the JavaScript `Set` built by
`clearAll` from the record keys followed by the field error keys. -/
def dedupKeys (l : List String) : List String :=
  l.foldl (fun acc k => if k ∈ acc then acc else acc ++ [k]) []

/-- `clearAll()`: apply `clear` to every key of the record or the error map
(the `Set` union of the two key enumerations, in first-occurrence order). -/
def clearAll (fi : FormInstance T) : FormInstance T :=
  (dedupKeys
    (fi.formState.record.map Prod.fst
      ++ fi.formState.fieldErrors.map Prod.fst)).foldl clear fi

/-- `allFormErrors()`. -/
def allFormErrors (fi : FormInstance T) : List String :=
  fi.formState.formErrors

/-- `isValid()`: no form errors and no non-empty field error entry. -/
def isValid (fi : FormInstance T) : Bool :=
  fi.formState.formErrors.length == 0 &&
    !(fi.formState.fieldErrors.any (fun p => decide (0 < p.2.length)))

/-- `isNotValid()`. -/
def isNotValid (fi : FormInstance T) : Bool :=
  !fi.isValid

/-- `values()`: throws unless a successful validation result is attached. -/
def values (fi : FormInstance T) : Except String T :=
  match fi.validationResult with
  | some (VResult.success v) => Except.ok v
  | _ => Except.error ("Cannot get values from invalid form")

/-- `serialize()`: the form state itself. -/
def serialize (fi : FormInstance T) : FormState :=
  fi.formState

end FormInstance

/-- The multi-valued submission source (`FormData`), as its ordered list of
entries; `keys()` iterates first components, `getAll(k)` collects the values
bound to `k` in order. -/
abbrev FormData := List (String × String)

/-- `formData.getAll(key)` (entries are already strings in this model). -/
def formDataGetAll (formData : FormData) (key : String) : List String :=
  formData.filterMap (fun p => if p.1 = key then some p.2 else none)

/-- One iteration of the `toFormObject` loop body for the key of entry `p`:
`getAll` the key, store a single value bare and several values as a list. -/
def toFormObjectStep (formData : FormData) (result : FormStateRecord)
    (p : String × String) : FormStateRecord :=
  match formDataGetAll formData p.1 with
  | [v] => setKey result p.1 (FieldValue.str v)
  | vs => setKey result p.1 (FieldValue.arr vs)

/-- `toFormObject(formData)` from src/form.ts: for every key of the source,
a single value is stored bare and several values are stored as a list. The
loop over `formData.keys()` revisits repeated keys, re-assigning the same
computed value. -/
def toFormObject (formData : FormData) : FormStateRecord :=
  formData.foldl (toFormObjectStep formData) []

/-- The value `toFormObject` assigns to a key of the source: its single
value stored bare, otherwise the list of all its values in source order. -/
def valueFor (formData : FormData) (k : String) : FieldValue :=
  match formDataGetAll formData k with
  | [v] => FieldValue.str v
  | vs => FieldValue.arr vs

/-- A typed initial value handed to `newForm`: an array initial value is
modelled by its stringified items, a scalar one by its `String(value)`
rendering together with its JavaScript truthiness (the source stores `""`
for a falsy scalar). -/
inductive InitValue where
  | arr (items : List String)
  | scalar (str : String) (truthy : Bool)
deriving DecidableEq, Repr

/-- `newForm(initialValues)`: build the record from the entries of the
initial-value object; no errors, no validation result. -/
def newForm {T : Type} (initialValues : List (String × InitValue)) :
    FormInstance T :=
  let formData : FormStateRecord :=
    initialValues.foldl
      (fun acc p =>
        match p.2 with
        | InitValue.arr items => setKey acc p.1 (FieldValue.arr items)
        | InitValue.scalar s truthy =>
          setKey acc p.1 (FieldValue.str (if truthy then s else "")))
      []
  ⟨⟨formData, [], []⟩, none⟩

/-- One iteration of the validation adapter loop: an issue with absent or
empty path is pushed onto the form error list, any other issue is pushed
onto the entry of the field named by its first path segment
(`fieldErrors[f] ||= []` followed by a push). -/
def processIssue (acc : AList (List String) × List String) (issue : Issue) :
    AList (List String) × List String :=
  match issue.path with
  | none => (acc.1, acc.2 ++ [issue.message])
  | some [] => (acc.1, acc.2 ++ [issue.message])
  | some (field :: _) =>
    (setKey acc.1 field ((lookup acc.1 field).getD [] ++ [issue.message]),
     acc.2)

/-- The validation adapter pass over the issue list, starting from empty
collections; returns the field error map and the form error list. -/
def processIssues (issues : List Issue) : AList (List String) × List String :=
  issues.foldl processIssue ([], [])

/-- `validateForm(formData)`: normalize via `toFormObject`, run the validate
capability once (the single awaited call, modelled by applying `validate`),
translate the issues, and attach the validation result. -/
def validateForm {T : Type} (validate : FormStateRecord → VResult T)
    (formData : FormData) : FormInstance T :=
  let record := toFormObject formData
  let result := validate record
  let acc :=
    match result with
    | VResult.success _ => (([] : AList (List String)), ([] : List String))
    | VResult.failure issues => processIssues issues
  ⟨⟨record, acc.1, acc.2⟩, some result⟩

/-- `loadForm(serializedState)`: wrap the snapshot, no validation result. -/
def loadForm {T : Type} (serializedState : FormState) : FormInstance T :=
  ⟨serializedState, none⟩

namespace Zod

/-- Tagged-variant model of the introspectable Zod schema nodes used by the
compatibility checker: the allowed leaves (plain string, string formats such
as email/URL, and boolean/number/date/bigint with their coercion flag), any
other leaf kind by its constructor name, the unwrapped modifiers, and
arrays. -/
inductive ZodType where
  | zstring
  | zstringFormat
  | zboolean (coerce : Bool)
  | znumber (coerce : Bool)
  | zdate (coerce : Bool)
  | zbigint (coerce : Bool)
  | zother (ctorName : String)
  | zoptional (innerType : ZodType)
  | zdefault (innerType : ZodType)
  | zeffects (schema : ZodType)
  | zarray (element : ZodType)
deriving DecidableEq, Repr

/-- `constructor.name` of a schema node. -/
def typeName : ZodType → String
  | ZodType.zstring => "ZodString"
  | ZodType.zstringFormat => "ZodStringFormat"
  | ZodType.zboolean _ => "ZodBoolean"
  | ZodType.znumber _ => "ZodNumber"
  | ZodType.zdate _ => "ZodDate"
  | ZodType.zbigint _ => "ZodBigInt"
  | ZodType.zother n => n
  | ZodType.zoptional _ => "ZodOptional"
  | ZodType.zdefault _ => "ZodDefault"
  | ZodType.zeffects _ => "ZodEffects"
  | ZodType.zarray _ => "ZodArray"

/-- `unwrapModifiers`: strip optional/default wrappers and effect wrappers
until a base node is reached. -/
def unwrapModifiers : ZodType → ZodType
  | ZodType.zoptional t => unwrapModifiers t
  | ZodType.zdefault t => unwrapModifiers t
  | ZodType.zeffects t => unwrapModifiers t
  | t => t

/-- The unsupported-type setup error message. -/
def unsupportedMessage (fieldName suffix tyName : String) : String :=
  "Form field \"" ++ fieldName ++
    (suffix ++ "\" uses unsupported type \"" ++ tyName ++
      "\". Allowed types are: string, boolean, number, Date, BigInt, and email/URL/other string formats.")

/-- The missing-coercion setup error message. -/
def coercionMessage (fieldName suffix typeDescription : String) : String :=
  "Form field \"" ++ fieldName ++
    (suffix ++ "\" is a " ++ typeDescription ++
      " but doesn\x27t use coercion. Use z.coerce." ++
      jsToLowerCase typeDescription ++
      "() instead of z." ++ jsToLowerCase typeDescription ++
      "() to accept string input from HTML forms.")

/-- `validateBaseFieldType`: a leaf must be one of the allowed kinds, and a
non-string allowed kind must carry the coercion flag; the raised error names
the field (with the array-element qualifier when applicable). -/
def validateBaseFieldType (fieldName : String) (fieldSchema : ZodType)
    (isArrayElement : Bool) : Except String Unit :=
  let suffix := if isArrayElement then "[] (array element)" else ""
  match fieldSchema with
  | ZodType.zstring => Except.ok ()
  | ZodType.zstringFormat => Except.ok ()
  | ZodType.zboolean c =>
    if c then Except.ok ()
    else Except.error (coercionMessage fieldName suffix "boolean")
  | ZodType.znumber c =>
    if c then Except.ok ()
    else Except.error (coercionMessage fieldName suffix "number")
  | ZodType.zdate c =>
    if c then Except.ok ()
    else Except.error (coercionMessage fieldName suffix "Date")
  | ZodType.zbigint c =>
    if c then Except.ok ()
    else Except.error (coercionMessage fieldName suffix "BigInt")
  | other => Except.error (unsupportedMessage fieldName suffix (typeName other))

/-- `validateFieldSchema`: unwrap the modifiers; an array validates its
unwrapped element as an array-element leaf, anything else validates as a
plain leaf. -/
def validateFieldSchema (fieldName : String) (fieldSchema : ZodType) :
    Except String Unit :=
  match unwrapModifiers fieldSchema with
  | ZodType.zarray element =>
    validateBaseFieldType fieldName (unwrapModifiers element) true
  | unwrapped => validateBaseFieldType fieldName unwrapped false

/-- `validateSchemaCompatibility`: check every field of the shape in order;
the first failing field aborts with its error. -/
def validateSchemaCompatibility :
    List (String × ZodType) → Except String Unit
  | [] => Except.ok ()
  | (fieldName, fieldSchema) :: rest =>
    match validateFieldSchema fieldName fieldSchema with
    | Except.error e => Except.error e
    | Except.ok _ => validateSchemaCompatibility rest

/-- `createForm(schema)` of the Zod-based module: run the compatibility
checker once at setup; on success the schema-bound operations are returned
(represented here by the checked shape). -/
def createForm (shape : List (String × ZodType)) :
    Except String (List (String × ZodType)) :=
  match validateSchemaCompatibility shape with
  | Except.error e => Except.error e
  | Except.ok _ => Except.ok shape

/-- Spec-side leaf rule (claim wording): a leaf is acceptable when it is a
string, a formatted string, or a coercing boolean/number/date/bigint. -/
def specLeafAllowed : ZodType → Bool
  | ZodType.zstring => true
  | ZodType.zstringFormat => true
  | ZodType.zboolean c => c
  | ZodType.znumber c => c
  | ZodType.zdate c => c
  | ZodType.zbigint c => c
  | _ => false

/-- Spec-side field rule (claim wording): the unwrapped leaf, or the
unwrapped array-element leaf, must be acceptable. -/
def specFieldOk (t : ZodType) : Bool :=
  match unwrapModifiers t with
  | ZodType.zarray element => specLeafAllowed (unwrapModifiers element)
  | unwrapped => specLeafAllowed unwrapped

end Zod

/-- Messages of the issues with absent or empty path, in list order
(spec wording for the Form-Level Error List produced by the adapter). -/
def formLevelMessages (issues : List Issue) : List String :=
  issues.filterMap
    (fun issue =>
      match issue.path with
      | none => some issue.message
      | some [] => some issue.message
      | some (_ :: _) => none)

/-- Messages of the issues whose first path segment names `field`, in list
order (spec wording for that field entry produced by the adapter). -/
def fieldMessages (issues : List Issue) (field : String) : List String :=
  issues.filterMap
    (fun issue =>
      match issue.path with
      | some (f :: _) => if f = field then some issue.message else none
      | _ => none)

/-- The stray-key half of the C2 claim, for a given list of declared field
names: the canonical record built by validate-submission never contains a
source key that is not declared. -/
def strayKeysAbsent (declared : List String) : Prop :=
  ∀ (T : Type) (validate : FormStateRecord → VResult T)
    (formData : FormData) (k : String),
    k ∉ declared →
    lookup (validateForm validate formData).formState.record k = none

/-- The mutating operations quantified over by the C9 reachability claim,
restricted to the two purely additive ones. -/
inductive FormOp where
  | addFieldError (field msg : String)
  | addFormError (msg : String)
deriving DecidableEq, Repr

/-- Apply one additive operation to a form instance. -/
def applyOp {T : Type} (fi : FormInstance T) : FormOp → FormInstance T
  | FormOp.addFieldError field msg => fi.addFieldError field msg
  | FormOp.addFormError msg => fi.addFormError msg

/-- Apply a sequence of additive operations in order. -/
def applyOps {T : Type} (fi : FormInstance T) (ops : List FormOp) :
    FormInstance T :=
  ops.foldl applyOp fi

/-- A form instance produced by one of the entry operations build-empty or
validate-submission. -/
def EntryState {T : Type} (fi : FormInstance T) : Prop :=
  (∃ initialValues, fi = newForm initialValues) ∨
    (∃ validate formData, fi = validateForm validate formData)

/-- Every key present in the field error map carries a non-empty message
list (the C9 invariant). -/
def fieldErrorsNonEmpty {T : Type} (fi : FormInstance T) : Prop :=
  ∀ p ∈ fi.formState.fieldErrors, p.2 ≠ []

/-- A concrete form result used by witnesses: one record field, one field
error entry, one form-level error. -/
def sampleForm : FormInstance Unit :=
  ⟨⟨[("a", FieldValue.str "x")], [("b", ["e"])], ["boom"]⟩, none⟩

theorem lookup_setKey {V : Type} (m : AList V) (k k' : String) (v : V) :
    lookup (setKey m k v) k' = if k = k' then some v else lookup m k' := by
  induction m with
  | nil => simp [setKey, lookup]
  | cons hd tl ih =>
    obtain ⟨a, b⟩ := hd
    by_cases hak : a = k
    · subst hak
      simp only [setKey, if_pos rfl, lookup]
      by_cases hkk : a = k' <;> simp [hkk, lookup]
    · simp only [setKey, if_neg hak, lookup, ih]
      by_cases hak' : a = k' <;> by_cases hkk' : k = k' <;> simp_all

theorem mem_setKey {V : Type} {k : String} {v : V} {p : String × V} :
    ∀ {m : AList V}, p ∈ setKey m k v → p ∈ m ∨ p = (k, v) := by
  intro m
  induction m with
  | nil =>
    intro hp
    simp only [setKey] at hp
    simp_all
  | cons hd tl ih =>
    obtain ⟨a, b⟩ := hd
    intro hp
    by_cases hak : a = k
    · subst hak
      simp only [setKey, if_true, eq_self_iff_true, List.mem_cons] at hp
      rcases hp with h | h
      · exact Or.inr h
      · exact Or.inl (List.mem_cons_of_mem _ h)
    · simp only [setKey, if_neg hak, List.mem_cons] at hp
      rcases hp with h | h
      · exact Or.inl (by simp [h])
      · rcases ih h with h' | h'
        · exact Or.inl (List.mem_cons_of_mem _ h')
        · exact Or.inr h'

/-- C1: serialization round-trip law — the form result obtained by
`loadForm (X.serialize)` is observationally identical to `X` through `get`,
`getAll`, `errors`, `allFormErrors` and `isValid` at every field. -/
theorem C1_serialize_roundTrip {T : Type} (fi : FormInstance T)
    (field : String) :
    (loadForm fi.serialize : FormInstance T).get field = fi.get field
  ∧ (loadForm fi.serialize : FormInstance T).getAll field = fi.getAll field
  ∧ (loadForm fi.serialize : FormInstance T).errors field = fi.errors field
  ∧ (loadForm fi.serialize : FormInstance T).allFormErrors = fi.allFormErrors
  ∧ (loadForm fi.serialize : FormInstance T).isValid = fi.isValid :=
  ⟨rfl, rfl, rfl, rfl, rfl⟩

/-- C4: `values()` throws the invalid-state error exactly on form results
from build-empty, from reload, and from a validation that produced issues;
on a successful validation it returns the parsed value. -/
theorem C4_values_misuse {T : Type} :
    (∀ initialValues : List (String × InitValue),
        (newForm initialValues : FormInstance T).values
          = Except.error ("Cannot get values from invalid form"))
  ∧ (∀ st : FormState,
        (loadForm st : FormInstance T).values
          = Except.error ("Cannot get values from invalid form"))
  ∧ (∀ (validate : FormStateRecord → VResult T) (formData : FormData)
        (issues : List Issue),
        validate (toFormObject formData) = VResult.failure issues →
        (validateForm validate formData).values
          = Except.error ("Cannot get values from invalid form"))
  ∧ (∀ (validate : FormStateRecord → VResult T) (formData : FormData) (v : T),
        validate (toFormObject formData) = VResult.success v →
        (validateForm validate formData).values = Except.ok v) := by
  refine ⟨fun _ => rfl, fun _ => rfl, ?_, ?_⟩
  · intro validate formData issues h
    simp [validateForm, FormInstance.values, h]
  · intro validate formData v h
    simp [validateForm, FormInstance.values, h]

/-- Witness for C4 at a concrete failing validator and a concrete
succeeding validator. -/
theorem C4_values_misuse_witness :
    (validateForm (fun _ => VResult.failure [⟨"bad", none⟩])
        [("email", "x")] : FormInstance Unit).values
      = Except.error ("Cannot get values from invalid form")
  ∧ (validateForm (fun _ => VResult.success ())
        ([] : FormData) : FormInstance Unit).values = Except.ok () := by
  constructor
  · exact (@C4_values_misuse Unit).2.2.1 _ _ [⟨"bad", none⟩] rfl
  · exact (@C4_values_misuse Unit).2.2.2 _ _ () rfl

theorem toFormObjectStep_eq (formData : FormData) (acc : FormStateRecord)
    (p : String × String) :
    toFormObjectStep formData acc p = setKey acc p.1 (valueFor formData p.1) := by
  unfold toFormObjectStep valueFor
  cases h : formDataGetAll formData p.1 with
  | nil => rfl
  | cons v tl => cases tl <;> rfl

theorem lookup_toFormObject_aux (formData : FormData) :
    ∀ (entries : List (String × String)) (acc : FormStateRecord) (k : String),
      lookup (entries.foldl (toFormObjectStep formData) acc) k
        = if k ∈ entries.map Prod.fst then some (valueFor formData k)
          else lookup acc k := by
  intro entries
  induction entries with
  | nil => intro acc k; simp
  | cons hd tl ih =>
    intro acc k
    rw [List.foldl_cons, ih, toFormObjectStep_eq, lookup_setKey]
    by_cases h2 : hd.1 = k
    · subst h2
      have hmem : hd.1 ∈ List.map Prod.fst (hd :: tl) := by simp
      by_cases h1 : hd.1 ∈ tl.map Prod.fst
      · rw [if_pos h1, if_pos hmem]
      · rw [if_neg h1, if_pos rfl, if_pos hmem]
    · have h2' : ¬ k = hd.1 := fun h => h2 h.symm
      rw [if_neg h2]
      by_cases h1 : k ∈ tl.map Prod.fst
      · rw [if_pos h1, if_pos (by simp [h1])]
      · rw [if_neg h1, if_neg (by simp [h1, h2'])]

theorem lookup_toFormObject (formData : FormData) (k : String) :
    lookup (toFormObject formData) k
      = if k ∈ formData.map Prod.fst then some (valueFor formData k)
        else none := by
  unfold toFormObject
  rw [lookup_toFormObject_aux]
  simp [lookup]

/-- C2 counterexample: with declared fields `["email"]`, the claim demands
that the stray source key `"extra"` be absent from the canonical record
built by validate-submission; the code keeps every source key. -/
theorem C2_strayKeys_counterexample : ¬ strayKeysAbsent ["email"] := by
  intro h
  have hx := h Unit (fun _ => VResult.failure []) [("extra", "x")] "extra"
    (by decide)
  exact absurd hx (by decide)

/-- C2 (amended): validate-submission builds the canonical record from the
submission source alone, without consulting the schema — every key of the
source is present, mapped to its single value stored bare when the source
carries exactly one value for that key and to the ordered list of all its
values otherwise (so stray keys are kept and a scalar-declared key with
several values keeps them all); keys absent from the source, declared or
not, are absent from the record. -/
theorem C2_normalization_amended {T : Type}
    (validate : FormStateRecord → VResult T) (formData : FormData)
    (k : String) :
    (k ∉ formData.map Prod.fst →
      lookup (validateForm validate formData).formState.record k = none)
  ∧ (k ∈ formData.map Prod.fst →
      lookup (validateForm validate formData).formState.record k
        = some (valueFor formData k)) := by
  have hrec : (validateForm validate formData).formState.record
      = toFormObject formData := rfl
  constructor <;> intro h <;> rw [hrec, lookup_toFormObject] <;> simp [h]

/-- Witness for the amended C2: a key with two values in source order, and
an absent key. -/
theorem C2_normalization_amended_witness :
    lookup (validateForm (fun _ => VResult.failure ([] : List Issue))
        [("a", "1"), ("b", "2"), ("a", "3")] :
        FormInstance Unit).formState.record "a"
      = some (FieldValue.arr ["1", "3"])
  ∧ lookup (validateForm (fun _ => VResult.failure ([] : List Issue))
        [("a", "1"), ("b", "2"), ("a", "3")] :
        FormInstance Unit).formState.record "zzz" = none := by
  constructor
  · exact ((@C2_normalization_amended Unit
      (fun _ => VResult.failure ([] : List Issue))
      [("a", "1"), ("b", "2"), ("a", "3")] "a").2 (by decide)).trans (by decide)
  · exact (@C2_normalization_amended Unit
      (fun _ => VResult.failure ([] : List Issue))
      [("a", "1"), ("b", "2"), ("a", "3")] "zzz").1 (by decide)

theorem processIssues_formErrors_aux :
    ∀ (issues : List Issue) (acc : AList (List String) × List String),
      (issues.foldl processIssue acc).2 = acc.2 ++ formLevelMessages issues := by
  intro issues
  induction issues with
  | nil => intro acc; simp [formLevelMessages]
  | cons i rest ih =>
    intro acc
    rw [List.foldl_cons, ih]
    cases hp : i.path with
    | none => simp [processIssue, formLevelMessages, List.filterMap_cons, hp]
    | some l =>
      cases l with
      | nil => simp [processIssue, formLevelMessages, List.filterMap_cons, hp]
      | cons g gs =>
        simp [processIssue, formLevelMessages, List.filterMap_cons, hp]

theorem processIssues_fieldErrors_aux :
    ∀ (issues : List Issue) (acc : AList (List String) × List String)
      (f : String),
      lookup (issues.foldl processIssue acc).1 f
        = (match lookup acc.1 f with
           | some l0 => some (l0 ++ fieldMessages issues f)
           | none =>
             if fieldMessages issues f = [] then none
             else some (fieldMessages issues f)) := by
  intro issues
  induction issues with
  | nil =>
    intro acc f
    cases hl : lookup acc.1 f <;> simp [fieldMessages, hl]
  | cons i rest ih =>
    intro acc f
    rw [List.foldl_cons, ih]
    cases hp : i.path with
    | none =>
      have hstep : processIssue acc i = (acc.1, acc.2 ++ [i.message]) := by
        simp [processIssue, hp]
      have hmsg : fieldMessages (i :: rest) f = fieldMessages rest f := by
        simp [fieldMessages, List.filterMap_cons, hp]
      rw [hstep, hmsg]
    | some l =>
      cases l with
      | nil =>
        have hstep : processIssue acc i = (acc.1, acc.2 ++ [i.message]) := by
          simp [processIssue, hp]
        have hmsg : fieldMessages (i :: rest) f = fieldMessages rest f := by
          simp [fieldMessages, List.filterMap_cons, hp]
        rw [hstep, hmsg]
      | cons g gs =>
        have hstep : processIssue acc i
            = (setKey acc.1 g ((lookup acc.1 g).getD [] ++ [i.message]),
               acc.2) := by
          simp [processIssue, hp]
        rw [hstep]
        by_cases hg : g = f
        · subst hg
          have hmsg : fieldMessages (i :: rest) g
              = i.message :: fieldMessages rest g := by
            simp [fieldMessages, List.filterMap_cons, hp]
          rw [hmsg]
          simp only [lookup_setKey, if_pos rfl]
          cases hl : lookup acc.1 g <;> simp
        · have hmsg : fieldMessages (i :: rest) f = fieldMessages rest f := by
            simp [fieldMessages, List.filterMap_cons, hp, hg]
          rw [hmsg]
          simp only [lookup_setKey, if_neg hg]

/-- C6: validation-adapter translation — on failure, the form error list
holds exactly the messages of the empty-path issues in order and each field
entry holds exactly the messages of the issues whose first path segment
names it, in order, created only when non-empty; on success both
collections are empty and the typed result is the parsed value. -/
theorem C6_adapter_translation {T : Type}
    (validate : FormStateRecord → VResult T) (formData : FormData) :
    (∀ issues, validate (toFormObject formData) = VResult.failure issues →
      (validateForm validate formData).formState.formErrors
          = formLevelMessages issues
      ∧ ∀ f, lookup (validateForm validate formData).formState.fieldErrors f
          = (if fieldMessages issues f = [] then none
             else some (fieldMessages issues f)))
  ∧ (∀ v, validate (toFormObject formData) = VResult.success v →
      (validateForm validate formData).formState.fieldErrors = []
      ∧ (validateForm validate formData).formState.formErrors = []
      ∧ (validateForm validate formData).values = Except.ok v) := by
  constructor
  · intro issues h
    have hfe : (validateForm validate formData).formState.fieldErrors
        = (processIssues issues).1 := by
      simp [validateForm, h]
    have hfo : (validateForm validate formData).formState.formErrors
        = (processIssues issues).2 := by
      simp [validateForm, h]
    constructor
    · rw [hfo]
      unfold processIssues
      rw [processIssues_formErrors_aux]
      simp
    · intro f
      rw [hfe]
      unfold processIssues
      rw [processIssues_fieldErrors_aux]
      simp [lookup]
  · intro v h
    refine ⟨?_, ?_, ?_⟩ <;> simp [validateForm, FormInstance.values, h]

/-- Witness for C6 at a concrete issue list mixing empty paths, field
paths and a multi-segment path. -/
theorem C6_adapter_translation_witness :
    (validateForm
        (fun _ => VResult.failure
          [⟨"m1", none⟩, ⟨"m2", some ["email"]⟩, ⟨"m3", some []⟩,
           ⟨"m4", some ["email", "x"]⟩])
        [("email", "bad")] : FormInstance Unit).formState.formErrors
      = ["m1", "m3"]
  ∧ lookup (validateForm
        (fun _ => VResult.failure
          [⟨"m1", none⟩, ⟨"m2", some ["email"]⟩, ⟨"m3", some []⟩,
           ⟨"m4", some ["email", "x"]⟩])
        [("email", "bad")] : FormInstance Unit).formState.fieldErrors "email"
      = some ["m2", "m4"] := by
  constructor
  · exact ((C6_adapter_translation
      (fun _ => VResult.failure
        [⟨"m1", none⟩, ⟨"m2", some ["email"]⟩, ⟨"m3", some []⟩,
         ⟨"m4", some ["email", "x"]⟩])
      [("email", "bad")]).1 _ rfl).1.trans (by decide)
  · exact (((C6_adapter_translation
      (fun _ => VResult.failure
        [⟨"m1", none⟩, ⟨"m2", some ["email"]⟩, ⟨"m3", some []⟩,
         ⟨"m4", some ["email", "x"]⟩])
      [("email", "bad")]).1 _ rfl).2 "email").trans (by decide)

theorem jsToLowerCase_eq_empty_iff {v : String} :
    jsToLowerCase v = "" ↔ v = "" := by
  cases v with
  | mk data => cases data <;> simp [jsToLowerCase, String.ext_iff]

/-- C3 counterexample: the record maps `"flag"` to the non-empty string
`"false"`, yet `isTrue` returns false — refuting the claim that every
non-empty value yields true. -/
theorem C3_isTrue_counterexample :
    lookup (FormInstance.mk ⟨[("flag", FieldValue.str "false")], [], []⟩
        (none : Option (VResult Unit))).formState.record "flag"
      = some (FieldValue.str "false")
  ∧ ("false" : String) ≠ ""
  ∧ (FormInstance.mk ⟨[("flag", FieldValue.str "false")], [], []⟩
        (none : Option (VResult Unit))).isTrue "flag" = false :=
  ⟨rfl, by decide, by decide⟩

/-- C3 (amended): `isTrue` is false when the field is absent or maps to the
empty string; a present non-empty value yields true exactly when its
lower-cased form is neither `"false"` nor `"0"`, and yields false when the
lower-cased form is `"false"` or `"0"`. -/
theorem C3_isTrue_amended {T : Type} (fi : FormInstance T) (field : String) :
    (lookup fi.formState.record field = none → fi.isTrue field = false)
  ∧ (lookup fi.formState.record field = some (FieldValue.str "") →
      fi.isTrue field = false)
  ∧ (∀ v, lookup fi.formState.record field = some (FieldValue.str v) →
      v ≠ "" → jsToLowerCase v ≠ "false" → jsToLowerCase v ≠ "0" →
      fi.isTrue field = true)
  ∧ (∀ v, lookup fi.formState.record field = some (FieldValue.str v) →
      (jsToLowerCase v = "false" ∨ jsToLowerCase v = "0") →
      fi.isTrue field = false) := by
  refine ⟨?_, ?_, ?_, ?_⟩
  · intro h
    simp [FormInstance.isTrue, FormInstance.get, h]
  · intro h
    simp [FormInstance.isTrue, FormInstance.get, h]
  · intro v h hv hf h0
    simp only [FormInstance.isTrue, FormInstance.get, h, if_neg hv]
    simp only [if_neg hv, Bool.and_eq_true, bne_iff_ne]
    exact ⟨⟨fun he => hv (jsToLowerCase_eq_empty_iff.mp he), hf⟩, h0⟩
  · intro v h hlow
    by_cases hv : v = ""
    · subst hv
      simp [FormInstance.isTrue, FormInstance.get, h]
    · simp only [FormInstance.isTrue, FormInstance.get, h, if_neg hv]
      rcases hlow with h' | h' <;> simp [h']

/-- Witness for the amended C3 at concrete record values. -/
theorem C3_isTrue_amended_witness :
    (FormInstance.mk ⟨[("a", FieldValue.str "Yes")], [], []⟩
        (none : Option (VResult Unit))).isTrue "a" = true
  ∧ (FormInstance.mk ⟨[("b", FieldValue.str "0")], [], []⟩
        (none : Option (VResult Unit))).isTrue "b" = false := by
  constructor
  · exact (C3_isTrue_amended
      (FormInstance.mk ⟨[("a", FieldValue.str "Yes")], [], []⟩
        (none : Option (VResult Unit))) "a").2.2.1 "Yes"
      (by decide) (by decide) (by decide) (by decide)
  · exact (C3_isTrue_amended
      (FormInstance.mk ⟨[("b", FieldValue.str "0")], [], []⟩
        (none : Option (VResult Unit))) "b").2.2.2 "0"
      (by decide) (Or.inr (by decide))

/-- C7: the claim asserts `get` returns a string even when the record maps
the field to an empty sequence; the code instead evaluates `value[0]` on the
empty array and yields `undefined` (modelled `none`), contradicting its own
declared `string` return type. Exhibit: build-empty with an empty-array
initial value. -/
theorem C7_get_undefined_on_empty_array :
    lookup ((newForm [("tags", InitValue.arr [])] :
        FormInstance Unit)).formState.record "tags" = some (FieldValue.arr [])
  ∧ ((newForm [("tags", InitValue.arr [])] :
        FormInstance Unit)).get "tags" = none :=
  ⟨rfl, rfl⟩

theorem clear_record_lookup {T : Type} (fi : FormInstance T) (f k : String) :
    lookup (fi.clear f).formState.record k
      = if f = k then some (FieldValue.str "")
        else lookup fi.formState.record k := by
  simp [FormInstance.clear, lookup_setKey]

theorem clear_fieldErrors_lookup {T : Type} (fi : FormInstance T)
    (f k : String) :
    lookup (fi.clear f).formState.fieldErrors k
      = if f = k then some [] else lookup fi.formState.fieldErrors k := by
  simp [FormInstance.clear, lookup_setKey]

theorem clear_formErrors {T : Type} (fi : FormInstance T) (f : String) :
    (fi.clear f).formState.formErrors = fi.formState.formErrors := rfl

theorem foldl_clear_record {T : Type} :
    ∀ (fields : List String) (fi : FormInstance T) (k : String),
      lookup (fields.foldl FormInstance.clear fi).formState.record k
        = if k ∈ fields then some (FieldValue.str "")
          else lookup fi.formState.record k := by
  intro fields
  induction fields with
  | nil => intro fi k; simp
  | cons f fs ih =>
    intro fi k
    rw [List.foldl_cons, ih, clear_record_lookup]
    by_cases h1 : k ∈ fs
    · rw [if_pos h1, if_pos (List.mem_cons_of_mem _ h1)]
    · rw [if_neg h1]
      by_cases h2 : f = k
      · subst h2
        rw [if_pos rfl, if_pos (List.mem_cons_self _ _)]
      · have hn : k ∉ f :: fs := by
          intro hm
          rcases List.mem_cons.mp hm with h | h
          · exact h2 h.symm
          · exact h1 h
        rw [if_neg h2, if_neg hn]

theorem foldl_clear_fieldErrors {T : Type} :
    ∀ (fields : List String) (fi : FormInstance T) (k : String),
      lookup (fields.foldl FormInstance.clear fi).formState.fieldErrors k
        = if k ∈ fields then some []
          else lookup fi.formState.fieldErrors k := by
  intro fields
  induction fields with
  | nil => intro fi k; simp
  | cons f fs ih =>
    intro fi k
    rw [List.foldl_cons, ih, clear_fieldErrors_lookup]
    by_cases h1 : k ∈ fs
    · rw [if_pos h1, if_pos (List.mem_cons_of_mem _ h1)]
    · rw [if_neg h1]
      by_cases h2 : f = k
      · subst h2
        rw [if_pos rfl, if_pos (List.mem_cons_self _ _)]
      · have hn : k ∉ f :: fs := by
          intro hm
          rcases List.mem_cons.mp hm with h | h
          · exact h2 h.symm
          · exact h1 h
        rw [if_neg h2, if_neg hn]

theorem foldl_clear_formErrors {T : Type} :
    ∀ (fields : List String) (fi : FormInstance T),
      (fields.foldl FormInstance.clear fi).formState.formErrors
        = fi.formState.formErrors := by
  intro fields
  induction fields with
  | nil => intro fi; rfl
  | cons f fs ih =>
    intro fi
    rw [List.foldl_cons, ih, clear_formErrors]

theorem mem_dedupKeys_aux :
    ∀ (l : List String) (acc : List String) (k : String),
      (k ∈ l.foldl (fun acc k => if k ∈ acc then acc else acc ++ [k]) acc)
        ↔ (k ∈ acc ∨ k ∈ l) := by
  intro l
  induction l with
  | nil => intro acc k; simp
  | cons a tl ih =>
    intro acc k
    rw [List.foldl_cons, ih]
    by_cases ha : a ∈ acc
    · rw [if_pos ha]
      constructor
      · rintro (h | h)
        · exact Or.inl h
        · exact Or.inr (List.mem_cons_of_mem _ h)
      · rintro (h | h)
        · exact Or.inl h
        · rcases List.mem_cons.mp h with rfl | h'
          · exact Or.inl ha
          · exact Or.inr h'
    · rw [if_neg ha]
      simp only [List.mem_append, List.mem_cons, List.mem_singleton]
      tauto

theorem mem_dedupKeys (l : List String) (k : String) :
    k ∈ FormInstance.dedupKeys l ↔ k ∈ l := by
  unfold FormInstance.dedupKeys
  rw [mem_dedupKeys_aux]
  simp

theorem clearAll_record_lookup {T : Type} (fi : FormInstance T) (k : String) :
    lookup fi.clearAll.formState.record k
      = if k ∈ fi.formState.record.map Prod.fst
            ∨ k ∈ fi.formState.fieldErrors.map Prod.fst
        then some (FieldValue.str "") else lookup fi.formState.record k := by
  unfold FormInstance.clearAll
  rw [foldl_clear_record]
  by_cases h : k ∈ fi.formState.record.map Prod.fst
      ∨ k ∈ fi.formState.fieldErrors.map Prod.fst
  · rw [if_pos h,
      if_pos ((mem_dedupKeys _ _).mpr (List.mem_append.mpr h))]
  · rw [if_neg h,
      if_neg (fun hm => h (List.mem_append.mp ((mem_dedupKeys _ _).mp hm)))]

theorem clearAll_fieldErrors_lookup {T : Type} (fi : FormInstance T)
    (k : String) :
    lookup fi.clearAll.formState.fieldErrors k
      = if k ∈ fi.formState.record.map Prod.fst
            ∨ k ∈ fi.formState.fieldErrors.map Prod.fst
        then some [] else lookup fi.formState.fieldErrors k := by
  unfold FormInstance.clearAll
  rw [foldl_clear_fieldErrors]
  by_cases h : k ∈ fi.formState.record.map Prod.fst
      ∨ k ∈ fi.formState.fieldErrors.map Prod.fst
  · rw [if_pos h,
      if_pos ((mem_dedupKeys _ _).mpr (List.mem_append.mpr h))]
  · rw [if_neg h,
      if_neg (fun hm => h (List.mem_append.mp ((mem_dedupKeys _ _).mp hm)))]

/-- C8: `clear(f)` sets exactly field `f` to the empty string with an empty
error entry and leaves every other field untouched; `clearAll` clears
precisely the keys present in the record or the error collection and leaves
all other keys untouched. -/
theorem C8_clear_frame {T : Type} (fi : FormInstance T) (f : String) :
    lookup (fi.clear f).formState.record f = some (FieldValue.str "")
  ∧ lookup (fi.clear f).formState.fieldErrors f = some []
  ∧ (∀ g, g ≠ f →
      lookup (fi.clear f).formState.record g = lookup fi.formState.record g)
  ∧ (∀ g, g ≠ f →
      lookup (fi.clear f).formState.fieldErrors g
        = lookup fi.formState.fieldErrors g)
  ∧ (∀ k, (k ∈ fi.formState.record.map Prod.fst
        ∨ k ∈ fi.formState.fieldErrors.map Prod.fst) →
      lookup fi.clearAll.formState.record k = some (FieldValue.str "")
      ∧ lookup fi.clearAll.formState.fieldErrors k = some [])
  ∧ (∀ k, ¬(k ∈ fi.formState.record.map Prod.fst
        ∨ k ∈ fi.formState.fieldErrors.map Prod.fst) →
      lookup fi.clearAll.formState.record k = lookup fi.formState.record k
      ∧ lookup fi.clearAll.formState.fieldErrors k
          = lookup fi.formState.fieldErrors k) := by
  refine ⟨?_, ?_, ?_, ?_, ?_, ?_⟩
  · rw [clear_record_lookup, if_pos rfl]
  · rw [clear_fieldErrors_lookup, if_pos rfl]
  · intro g hg
    rw [clear_record_lookup, if_neg (fun h => hg h.symm)]
  · intro g hg
    rw [clear_fieldErrors_lookup, if_neg (fun h => hg h.symm)]
  · intro k hk
    exact ⟨by rw [clearAll_record_lookup, if_pos hk],
      by rw [clearAll_fieldErrors_lookup, if_pos hk]⟩
  · intro k hk
    exact ⟨by rw [clearAll_record_lookup, if_neg hk],
      by rw [clearAll_fieldErrors_lookup, if_neg hk]⟩

/-- Witness for C8 on a concrete instance: an untouched other field, a
cleared error-only key, and an untouched absent key. -/
theorem C8_clear_frame_witness :
    lookup (sampleForm.clear "a").formState.fieldErrors "b"
      = lookup sampleForm.formState.fieldErrors "b"
  ∧ lookup sampleForm.clearAll.formState.record "b"
      = some (FieldValue.str "")
  ∧ lookup sampleForm.clearAll.formState.fieldErrors "zzz"
      = lookup sampleForm.formState.fieldErrors "zzz" := by
  refine ⟨?_, ?_, ?_⟩
  · exact (C8_clear_frame sampleForm "a").2.2.2.1 "b" (by decide)
  · exact ((C8_clear_frame sampleForm "a").2.2.2.2.1 "b"
      (Or.inr (by decide))).1
  · exact ((C8_clear_frame sampleForm "a").2.2.2.2.2 "zzz" (by decide)).2

/-- C10: `clear` and `clearAll` leave the form-level error list exactly as
it was, and a form result with a non-empty form-level error list still
satisfies `isNotValid` after `clearAll`. -/
theorem C10_clearAll_formErrors_frame {T : Type} (fi : FormInstance T)
    (f : String) :
    (fi.clear f).allFormErrors = fi.allFormErrors
  ∧ fi.clearAll.allFormErrors = fi.allFormErrors
  ∧ (fi.formState.formErrors ≠ [] → fi.clearAll.isNotValid = true) := by
  have h2 : fi.clearAll.formState.formErrors = fi.formState.formErrors := by
    unfold FormInstance.clearAll
    rw [foldl_clear_formErrors]
  refine ⟨rfl, h2, ?_⟩
  intro hne
  have hlen : (fi.clearAll.formState.formErrors.length == 0) = false := by
    rw [h2]
    cases hfe : fi.formState.formErrors
    · exact absurd hfe hne
    · rfl
  simp [FormInstance.isNotValid, FormInstance.isValid, hlen]

/-- Witness for C10: the sample form has a form-level error, and stays
not-valid after `clearAll`. -/
theorem C10_clearAll_formErrors_frame_witness :
    sampleForm.clearAll.isNotValid = true :=
  (C10_clearAll_formErrors_frame sampleForm "a").2.2 (by decide)

theorem fieldErrorsNonEmpty_applyOp {T : Type} (fi : FormInstance T)
    (op : FormOp) (h : fieldErrorsNonEmpty fi) :
    fieldErrorsNonEmpty (applyOp fi op) := by
  cases op with
  | addFormError m => exact h
  | addFieldError f m =>
    intro p hp
    simp only [applyOp, FormInstance.addFieldError] at hp
    rcases mem_setKey hp with h' | h'
    · exact h p h'
    · rw [h']
      simp

theorem fieldErrorsNonEmpty_applyOps {T : Type} :
    ∀ (ops : List FormOp) (fi : FormInstance T),
      fieldErrorsNonEmpty fi → fieldErrorsNonEmpty (applyOps fi ops) := by
  intro ops
  induction ops with
  | nil => intro fi h; exact h
  | cons op rest ih =>
    intro fi h
    exact ih _ (fieldErrorsNonEmpty_applyOp fi op h)

theorem processIssues_nonEmpty_aux :
    ∀ (issues : List Issue) (acc : AList (List String) × List String),
      (∀ p ∈ acc.1, p.2 ≠ []) →
      ∀ p ∈ (issues.foldl processIssue acc).1, p.2 ≠ [] := by
  intro issues
  induction issues with
  | nil => intro acc h; exact h
  | cons i rest ih =>
    intro acc h
    rw [List.foldl_cons]
    apply ih
    intro p hp
    cases hpath : i.path with
    | none =>
      have hstep : (processIssue acc i).1 = acc.1 := by
        simp [processIssue, hpath]
      rw [hstep] at hp
      exact h p hp
    | some l =>
      cases l with
      | nil =>
        have hstep : (processIssue acc i).1 = acc.1 := by
          simp [processIssue, hpath]
        rw [hstep] at hp
        exact h p hp
      | cons g gs =>
        have hstep : (processIssue acc i).1
            = setKey acc.1 g ((lookup acc.1 g).getD [] ++ [i.message]) := by
          simp [processIssue, hpath]
        rw [hstep] at hp
        rcases mem_setKey hp with h' | h'
        · exact h p h'
        · rw [h']
          simp

theorem entry_fieldErrorsNonEmpty {T : Type} (fi : FormInstance T)
    (h : EntryState fi) : fieldErrorsNonEmpty fi := by
  rcases h with ⟨init, rfl⟩ | ⟨validate, fd, rfl⟩
  · intro p hp
    simp [newForm] at hp
  · intro p hp
    cases hres : validate (toFormObject fd) with
    | success v =>
      have hfe : (validateForm validate fd).formState.fieldErrors = [] := by
        simp [validateForm, hres]
      rw [hfe] at hp
      simp at hp
    | failure issues =>
      have hfe : (validateForm validate fd).formState.fieldErrors
          = (processIssues issues).1 := by
        simp [validateForm, hres]
      rw [hfe] at hp
      exact processIssues_nonEmpty_aux issues ([], [])
        (by intro q hq; simp at hq) p hp

/-- C9 counterexample: starting from build-empty and applying the mutating
operation `clear("a")` — a form result reachable under the claimed operation
set — leaves the key `"a"` present in the field error collection with an
empty message list, refuting the non-empty-when-present invariant. -/
theorem C9_counterexample :
    ¬ fieldErrorsNonEmpty
        ((newForm ([] : List (String × InitValue)) :
          FormInstance Unit).clear "a") := by
  intro h
  exact (h ("a", []) (by decide)) rfl

/-- C9 (amended): the non-empty-when-present invariant holds in every form
result produced by build-empty or validate-submission and mutated only by
the additive operations `addFieldError` and `addFormError`; `clear` (and
hence `clearAll`) instead leaves the cleared key present with an empty
message list. -/
theorem C9_fieldErrors_invariant {T : Type} :
    (∀ fi : FormInstance T, EntryState fi →
      ∀ ops : List FormOp, fieldErrorsNonEmpty (applyOps fi ops))
  ∧ (∀ (fi : FormInstance T) (f : String),
      lookup (fi.clear f).formState.fieldErrors f = some []) := by
  constructor
  · intro fi h ops
    exact fieldErrorsNonEmpty_applyOps ops fi (entry_fieldErrorsNonEmpty fi h)
  · intro fi f
    rw [clear_fieldErrors_lookup, if_pos rfl]

/-- Witness for the amended C9: build-empty followed by two additive
operations keeps every present error entry non-empty. -/
theorem C9_fieldErrors_invariant_witness :
    fieldErrorsNonEmpty
      (applyOps (newForm ([] : List (String × InitValue)) : FormInstance Unit)
        [FormOp.addFieldError "a" "msg", FormOp.addFormError "b"]) :=
  (@C9_fieldErrors_invariant Unit).1 _ (Or.inl ⟨[], rfl⟩) _

theorem validateBaseFieldType_ok (f : String) (t : Zod.ZodType) (b : Bool)
    (h : Zod.specLeafAllowed t = true) :
    Zod.validateBaseFieldType f t b = Except.ok () := by
  cases t <;> simp_all [Zod.specLeafAllowed, Zod.validateBaseFieldType]

theorem validateBaseFieldType_bad (f : String) (t : Zod.ZodType) (b : Bool)
    (h : Zod.specLeafAllowed t = false) :
    ∃ pre post, Zod.validateBaseFieldType f t b
      = Except.error (pre ++ f ++ post) := by
  cases t with
  | zstring => simp [Zod.specLeafAllowed] at h
  | zstringFormat => simp [Zod.specLeafAllowed] at h
  | zboolean c =>
    have hc : c = false := by simpa [Zod.specLeafAllowed] using h
    subst hc
    exact ⟨"Form field \"", _, rfl⟩
  | znumber c =>
    have hc : c = false := by simpa [Zod.specLeafAllowed] using h
    subst hc
    exact ⟨"Form field \"", _, rfl⟩
  | zdate c =>
    have hc : c = false := by simpa [Zod.specLeafAllowed] using h
    subst hc
    exact ⟨"Form field \"", _, rfl⟩
  | zbigint c =>
    have hc : c = false := by simpa [Zod.specLeafAllowed] using h
    subst hc
    exact ⟨"Form field \"", _, rfl⟩
  | zother n => exact ⟨"Form field \"", _, rfl⟩
  | zoptional i => exact ⟨"Form field \"", _, rfl⟩
  | zdefault i => exact ⟨"Form field \"", _, rfl⟩
  | zeffects s => exact ⟨"Form field \"", _, rfl⟩
  | zarray e => exact ⟨"Form field \"", _, rfl⟩

theorem validateFieldSchema_ok (f : String) (t : Zod.ZodType)
    (h : Zod.specFieldOk t = true) :
    Zod.validateFieldSchema f t = Except.ok () := by
  unfold Zod.validateFieldSchema
  unfold Zod.specFieldOk at h
  cases hu : Zod.unwrapModifiers t <;> rw [hu] at h <;>
    first
      | exact validateBaseFieldType_ok f _ true (by simpa using h)
      | exact validateBaseFieldType_ok f _ false (by simpa using h)

theorem validateFieldSchema_bad (f : String) (t : Zod.ZodType)
    (h : Zod.specFieldOk t = false) :
    ∃ pre post,
      Zod.validateFieldSchema f t = Except.error (pre ++ f ++ post) := by
  unfold Zod.validateFieldSchema
  unfold Zod.specFieldOk at h
  cases hu : Zod.unwrapModifiers t <;> rw [hu] at h <;>
    first
      | exact validateBaseFieldType_bad f _ true (by simpa using h)
      | exact validateBaseFieldType_bad f _ false (by simpa using h)

theorem validateSchemaCompatibility_ok :
    ∀ shape : List (String × Zod.ZodType),
      (∀ p ∈ shape, Zod.specFieldOk p.2 = true) →
      Zod.validateSchemaCompatibility shape = Except.ok () := by
  intro shape
  induction shape with
  | nil => intro h; rfl
  | cons hd rest ih =>
    intro h
    obtain ⟨f, t⟩ := hd
    have h1 : Zod.validateFieldSchema f t = Except.ok () :=
      validateFieldSchema_ok f t (h (f, t) (List.mem_cons_self _ _))
    simp only [Zod.validateSchemaCompatibility, h1]
    exact ih (fun q hq => h q (List.mem_cons_of_mem _ hq))

theorem validateSchemaCompatibility_bad :
    ∀ (shape : List (String × Zod.ZodType)) (p : String × Zod.ZodType),
      p ∈ shape → Zod.specFieldOk p.2 = false →
      ∃ q pre post, q ∈ shape ∧ Zod.specFieldOk q.2 = false ∧
        Zod.validateSchemaCompatibility shape
          = Except.error (pre ++ q.1 ++ post) := by
  intro shape
  induction shape with
  | nil => intro p hp hbad; simp at hp
  | cons hd rest ih =>
    intro p hp hbad
    obtain ⟨f, t⟩ := hd
    by_cases hft : Zod.specFieldOk t = false
    · obtain ⟨pre, post, herr⟩ := validateFieldSchema_bad f t hft
      refine ⟨(f, t), pre, post, List.mem_cons_self _ _, hft, ?_⟩
      simp only [Zod.validateSchemaCompatibility, herr]
    · have hok : Zod.specFieldOk t = true := by
        cases hcase : Zod.specFieldOk t
        · exact absurd hcase hft
        · rfl
      have h1 : Zod.validateFieldSchema f t = Except.ok () :=
        validateFieldSchema_ok f t hok
      have hpr : p ∈ rest := by
        rcases List.mem_cons.mp hp with heq | hh
        · rw [heq] at hbad
          exact absurd hbad hft
        · exact hh
      obtain ⟨q, pre, post, hq, hqbad, herr⟩ := ih p hpr hbad
      refine ⟨q, pre, post, List.mem_cons_of_mem _ hq, hqbad, ?_⟩
      simp only [Zod.validateSchemaCompatibility, h1, herr]

/-- C5: compatibility-checker gate at setup — a schema whose every field
unwraps (directly or through an array element) to a string, formatted
string, or coercing boolean/number/date/bigint leaf constructs
successfully; a schema containing a field violating that rule is rejected
at construction with an error naming an offending field. -/
theorem C5_compatibility_gate :
    (∀ shape : List (String × Zod.ZodType),
      (∀ p ∈ shape, Zod.specFieldOk p.2 = true) →
      Zod.createForm shape = Except.ok shape)
  ∧ (∀ (shape : List (String × Zod.ZodType)) (p : String × Zod.ZodType),
      p ∈ shape → Zod.specFieldOk p.2 = false →
      ∃ q pre post, q ∈ shape ∧ Zod.specFieldOk q.2 = false ∧
        Zod.createForm shape = Except.error (pre ++ q.1 ++ post)) := by
  constructor
  · intro shape h
    have hc := validateSchemaCompatibility_ok shape h
    simp only [Zod.createForm, hc]
  · intro shape p hp hbad
    obtain ⟨q, pre, post, hq, hqbad, herr⟩ :=
      validateSchemaCompatibility_bad shape p hp hbad
    exact ⟨q, pre, post, hq, hqbad, by simp only [Zod.createForm, herr]⟩

/-- Witness for C5: a fully acceptable schema constructs, and a schema with
a non-coercing number field is rejected naming that field. -/
theorem C5_compatibility_gate_witness :
    Zod.createForm
        [("email", Zod.ZodType.zstringFormat),
         ("age", Zod.ZodType.znumber true)]
      = Except.ok
        [("email", Zod.ZodType.zstringFormat),
         ("age", Zod.ZodType.znumber true)]
  ∧ ∃ q pre post,
      q ∈ [("age", Zod.ZodType.znumber false)]
      ∧ Zod.specFieldOk q.2 = false
      ∧ Zod.createForm [("age", Zod.ZodType.znumber false)]
          = Except.error (pre ++ q.1 ++ post) := by
  constructor
  · exact C5_compatibility_gate.1 _ (by decide)
  · exact C5_compatibility_gate.2 _ ("age", Zod.ZodType.znumber false)
      (by decide) (by decide)

end Sigilla
